import Mathlib

/-!
Shallow embedding of the streaming audio segmentation logic of
`gigaam/stream.py` and of the offline VAD segmenter of `gigaam/vad_utils.py`.

Audio samples are modelled as rationals: the Python code stores 32-bit
floats, but every property under study concerns control flow, counting of
emitted results, buffer lengths and order comparisons, all of which the
idealised exact arithmetic preserves.  External collaborators (the ASR
model, the pyannote VAD oracle, pydub) are abstracted as parameters,
mirroring the narrow interfaces through which the source consumes them.
-/

namespace GigaAM

/-- A mono audio chunk: an ordered sequence of samples. -/
abbrev Chunk := List ℚ

/-- Total number of samples held by a list of chunks, as computed by
`sum(chunk.shape[0] for chunk in buffer)` in `stream.py`. -/
def totalSamples (buf : List Chunk) : ℕ := (buf.map List.length).sum

theorem totalSamples_nil : totalSamples [] = 0 := rfl

theorem totalSamples_cons (ch : Chunk) (l : List Chunk) :
    totalSamples (ch :: l) = ch.length + totalSamples l := by
  simp [totalSamples]

theorem totalSamples_append (l₁ l₂ : List Chunk) :
    totalSamples (l₁ ++ l₂) = totalSamples l₁ + totalSamples l₂ := by
  simp [totalSamples]

theorem totalSamples_replicate (n : ℕ) (ch : Chunk) :
    totalSamples (List.replicate n ch) = n * ch.length := by
  simp [totalSamples, List.map_replicate, List.sum_replicate, smul_eq_mul]

/-- Absolute value on ℚ, written out so that it evaluates by kernel
reduction. -/
def qabs (x : ℚ) : ℚ := if x < 0 then -x else x

theorem qabs_eq_abs (x : ℚ) : qabs x = |x| := by
  unfold qabs
  split
  · next h => exact (abs_of_neg h).symm
  · next h => exact (abs_of_nonneg (not_lt.mp h)).symm

/-- Binary maximum on ℚ, written out so that it evaluates by kernel
reduction. -/
def qmax (a b : ℚ) : ℚ := if a ≤ b then b else a

theorem qmax_eq_max (a b : ℚ) : qmax a b = max a b := (max_def a b).symm

/-- Peak absolute amplitude of a chunk: `audio_chunk.abs().max()` in
`stream.py` line 132 (taken as `0` for the empty chunk). -/
def peakAbs (ch : Chunk) : ℚ := (ch.map qabs).foldl qmax 0

/-- The amplitude-normalisation step of `AudioStream.add_audio_chunk`
(`stream.py` lines 131-133): divide by the peak only when the peak absolute
value exceeds `1.0`. -/
def normalizeChunk (ch : Chunk) : Chunk :=
  if 1 < peakAbs ch then ch.map (fun x => x / peakAbs ch) else ch

theorem normalizeChunk_length (ch : Chunk) :
    (normalizeChunk ch).length = ch.length := by
  unfold normalizeChunk
  split
  · simp
  · rfl

/-- The eviction loop of `AudioStream.add_audio_chunk` (`stream.py` lines
139-142): pop whole chunks from the front while the total sample count
exceeds the cap `max_buffer_samples`. -/
def evict (maxB : ℕ) : List Chunk → List Chunk
  | [] => []
  | ch :: rest =>
      if maxB < totalSamples (ch :: rest) then evict maxB rest
      else ch :: rest

/-- `AudioStream.add_audio_chunk` (`stream.py` lines 116-142): normalise the
chunk, append it to the buffer, then trim the buffer from the front. -/
def add_audio_chunk (maxB : ℕ) (buf : List Chunk) (ch : Chunk) : List Chunk :=
  evict maxB (buf ++ [normalizeChunk ch])

/-- The drain step of the processing loop `AudioStream._process_stream`
(`stream.py` lines 261-262): concatenate the whole buffer and replace it
with the empty list, both under the buffer lock. -/
def drain_all (buf : List Chunk) : Chunk × List Chunk := (buf.flatten, [])

theorem evict_total_le (maxB : ℕ) : ∀ l : List Chunk,
    totalSamples (evict maxB l) ≤ maxB
  | [] => by simp [evict, totalSamples]
  | ch :: rest => by
      rw [evict]
      by_cases h : maxB < totalSamples (ch :: rest)
      · rw [if_pos h]
        exact evict_total_le maxB rest
      · rw [if_neg h]
        omega

theorem evict_suffix (maxB : ℕ) : ∀ l : List Chunk, evict maxB l <:+ l
  | [] => List.suffix_refl []
  | ch :: rest => by
      rw [evict]
      by_cases h : maxB < totalSamples (ch :: rest)
      · rw [if_pos h]
        exact (evict_suffix maxB rest).trans (List.suffix_cons ch rest)
      · rw [if_neg h]

theorem evict_oversized (maxB : ℕ) (ch : Chunk) (h : maxB < ch.length) :
    ∀ l : List Chunk, evict maxB (l ++ [ch]) = []
  | [] => by
      rw [List.nil_append, evict, if_pos]
      · rfl
      · rw [totalSamples_cons, totalSamples_nil]
        omega
  | c :: l => by
      rw [List.cons_append, evict, if_pos]
      · exact evict_oversized maxB ch h l
      · rw [totalSamples_cons, totalSamples_append, totalSamples_cons,
          totalSamples_nil]
        omega

/-- C2: after any call to `add_audio_chunk` returns, the total buffered
sample count is at most `max_buffer_samples`, and the resulting buffer is a
suffix of the old buffer with the (normalised) new chunk appended — i.e.
eviction removes only whole chunks from the front, never a partial chunk. -/
theorem add_audio_chunk_capacity (maxB : ℕ) (buf : List Chunk) (ch : Chunk) :
    totalSamples (add_audio_chunk maxB buf ch) ≤ maxB ∧
    add_audio_chunk maxB buf ch <:+ buf ++ [normalizeChunk ch] :=
  ⟨evict_total_le maxB (buf ++ [normalizeChunk ch]),
   evict_suffix maxB (buf ++ [normalizeChunk ch])⟩

/-- C10: a single chunk holding more samples than `max_buffer_samples`
forces the eviction loop to discard the entire buffer, including the newly
appended oversized chunk: the buffer is left empty. -/
theorem add_audio_chunk_oversized (maxB : ℕ) (buf : List Chunk) (ch : Chunk)
    (h : maxB < ch.length) : add_audio_chunk maxB buf ch = [] := by
  unfold add_audio_chunk
  have hlen : maxB < (normalizeChunk ch).length := by
    rw [normalizeChunk_length]
    exact h
  exact evict_oversized maxB (normalizeChunk ch) hlen buf

theorem add_audio_chunk_oversized_witness :
    2 < ([1, 1, 1] : Chunk).length ∧
      add_audio_chunk 2 [[0]] [1, 1, 1] = [] :=
  ⟨by decide, add_audio_chunk_oversized 2 [[0]] [1, 1, 1] (by decide)⟩

/-- C8: the chunk is rescaled if and only if its peak absolute value
exceeds `1.0`, in which case every sample is divided by that peak; a chunk
whose peak is at most `1.0` is stored unchanged.  The last conjunct records
that `add_audio_chunk` stores exactly the normalised chunk. -/
theorem normalizeChunk_spec (ch : Chunk) :
    (1 < peakAbs ch → normalizeChunk ch = ch.map (fun x => x / peakAbs ch)) ∧
    (peakAbs ch ≤ 1 → normalizeChunk ch = ch) ∧
    (∀ maxB buf, add_audio_chunk maxB buf ch =
      evict maxB (buf ++ [normalizeChunk ch])) := by
  refine ⟨fun h => ?_, fun h => ?_, fun maxB buf => rfl⟩
  · rw [normalizeChunk, if_pos h]
  · rw [normalizeChunk, if_neg (not_lt.mpr h)]

theorem normalizeChunk_spec_witness :
    (1 < peakAbs [2, -1] ∧
      normalizeChunk [2, -1] = ([2, -1] : Chunk).map (fun x => x / peakAbs [2, -1])) ∧
    (peakAbs [1] ≤ 1 ∧ normalizeChunk [1] = [1]) :=
  ⟨⟨by decide, (normalizeChunk_spec [2, -1]).1 (by decide)⟩,
   ⟨by decide, (normalizeChunk_spec [1]).2.1 (by decide)⟩⟩

/-- C4: draining a non-empty buffer yields the ordered concatenation of all
buffered chunks, whose length is exactly the buffered total sample count,
and leaves the buffer empty. -/
theorem drain_all_spec (buf : List Chunk) (_h : buf ≠ []) :
    (drain_all buf).1 = buf.flatten ∧
    (drain_all buf).1.length = totalSamples buf ∧
    (drain_all buf).2 = [] :=
  ⟨rfl, by simp [drain_all, totalSamples], rfl⟩

theorem drain_all_spec_witness :
    ([[1], [2, 3]] : List Chunk) ≠ [] ∧
    (drain_all [[1], [2, 3]]).1 = ([[1], [2, 3]] : List Chunk).flatten ∧
    (drain_all [[1], [2, 3]]).1.length = totalSamples [[1], [2, 3]] ∧
    (drain_all [[1], [2, 3]]).2 = [] :=
  ⟨by decide, drain_all_spec [[1], [2, 3]] (by decide)⟩

/-- A recognition result as assembled by `_finalize_speech_segment` and
`_perform_interim_recognition` (`stream.py` lines 308-376).  The text and
wall-clock fields come from external collaborators; the fields the claims
refer to are the segment length in samples (the `duration` field is this
length divided by `sample_rate`) and the `is_final` flag. -/
structure StreamResult where
  durationSamples : ℕ
  is_final : Bool
deriving Repr, DecidableEq

/-- The per-session mutable state of `AudioStream` referenced by the
claims (`stream.py` lines 85-102). -/
@[ext]
structure SessionState where
  audio_buffer : List Chunk
  is_speaking : Bool
  silence_counter : ℕ
  speaking_buffer : List Chunk
  vad_buffer : List Chunk
  interim_results : List StreamResult
  final_results : List StreamResult
deriving Repr, DecidableEq

/-- The state of a freshly constructed `AudioStream`. -/
def initState : SessionState := ⟨[], false, 0, [], [], [], []⟩

/-- `AudioStream._perform_interim_recognition` (`stream.py` lines 347-376):
record an interim result for the concatenated speaking buffer. -/
def performInterim (s : SessionState) : SessionState :=
  { s with interim_results :=
      s.interim_results ++ [⟨totalSamples s.speaking_buffer, false⟩] }

/-- `AudioStream._finalize_speech_segment` (`stream.py` lines 308-345):
record a final result for the concatenated speaking buffer, then clear the
run state and the VAD window. -/
def finalizeSegment (s : SessionState) : SessionState :=
  { s with
    final_results := s.final_results ++ [⟨totalSamples s.speaking_buffer, true⟩]
    is_speaking := false
    silence_counter := 0
    speaking_buffer := []
    vad_buffer := [] }

/-- One iteration of the sub-chunk loop of `AudioStream._process_stream`
(`stream.py` lines 281-303), with the speech/silence classification of the
sub-chunk supplied as an argument (in the source it is the value returned
by `_detect_speech`). -/
def processSubchunk (stab minSil : ℕ) (s : SessionState) (sub : Chunk)
    (is_speech : Bool) : SessionState :=
  if is_speech then
    let buf := if s.is_speaking then s.speaking_buffer ++ [sub] else [sub]
    let s1 := { s with is_speaking := true, speaking_buffer := buf,
                       silence_counter := 0 }
    if buf.length % stab = 0 then performInterim s1 else s1
  else
    if s.is_speaking then
      let sc := s.silence_counter + sub.length
      let s1 := { s with speaking_buffer := s.speaking_buffer ++ [sub],
                         silence_counter := sc }
      if minSil ≤ sc then finalizeSegment s1 else s1
    else s

/-- The sub-chunk loop of `_process_stream` over a sequence of classified
sub-chunks. -/
def processSubchunks (stab minSil : ℕ) (subs : List (Chunk × Bool))
    (s : SessionState) : SessionState :=
  subs.foldl (fun st p => processSubchunk stab minSil st p.1 p.2) s

/-- `AudioStream.reset` (`stream.py` lines 434-445): clear the audio
buffer, the run state, the VAD window and the interim results; the final
results are left untouched. -/
def reset (s : SessionState) : SessionState :=
  { s with audio_buffer := [], is_speaking := false, silence_counter := 0,
           speaking_buffer := [], interim_results := [], vad_buffer := [] }

/-- C5: `reset` is idempotent — calling it twice leaves exactly the state
reached by calling it once — and after a `reset` the audio buffer, the
speech-run state, the VAD window and the interim results are all empty
while the final results are exactly what they were before. -/
theorem reset_idempotent (s : SessionState) :
    reset (reset s) = reset s ∧
    (reset s).final_results = s.final_results ∧
    (reset s).audio_buffer = [] ∧
    (reset s).is_speaking = false ∧
    (reset s).silence_counter = 0 ∧
    (reset s).speaking_buffer = [] ∧
    (reset s).vad_buffer = [] ∧
    (reset s).interim_results = [] :=
  ⟨rfl, rfl, rfl, rfl, rfl, rfl, rfl, rfl⟩

/-- Result of one call to the VAD-backed detector: the classification, the
updated VAD window, and whether the external oracle was invoked on this
call. -/
structure VadOutcome where
  is_speech : Bool
  window : List Chunk
  oracle_invoked : Bool
deriving Repr, DecidableEq

/-- Target size of the VAD accumulation window: 3 seconds of audio
(`stream.py` line 97). -/
def vadWindowSize (sample_rate : ℕ) : ℕ := 3 * sample_rate

/-- `AudioStream._detect_speech_vad` (`stream.py` lines 162-235) with
`use_vad` enabled.  The external pipeline invocation together with its
per-call energy fallback (lines 201-235) is abstracted as `oracle`. -/
def detect_speech_vad (sample_rate : ℕ) (oracle : Chunk → Bool)
    (vad_buffer : List Chunk) (audio : Chunk) : VadOutcome :=
  if totalSamples (vad_buffer ++ [audio]) < vadWindowSize sample_rate then
    ⟨false, vad_buffer ++ [audio], false⟩
  else
    if vadWindowSize sample_rate < (vad_buffer ++ [audio]).flatten.length then
      ⟨oracle ((vad_buffer ++ [audio]).flatten.drop
          ((vad_buffer ++ [audio]).flatten.length - vadWindowSize sample_rate)),
       [(vad_buffer ++ [audio]).flatten.drop
          ((vad_buffer ++ [audio]).flatten.length - vadWindowSize sample_rate)],
       true⟩
    else ⟨oracle (vad_buffer ++ [audio]).flatten, vad_buffer ++ [audio], true⟩

/-- C9: while the accumulated VAD window (including the sub-chunk just
added) holds fewer samples than its 3-second target, the VAD-backed
detector classifies the sub-chunk as non-speech without invoking the
external oracle. -/
theorem detect_speech_vad_insufficient (sample_rate : ℕ)
    (oracle : Chunk → Bool) (vad_buffer : List Chunk) (audio : Chunk)
    (h : totalSamples (vad_buffer ++ [audio]) < vadWindowSize sample_rate) :
    detect_speech_vad sample_rate oracle vad_buffer audio =
      ⟨false, vad_buffer ++ [audio], false⟩ := by
  unfold detect_speech_vad
  rw [if_pos h]

theorem detect_speech_vad_insufficient_witness :
    totalSamples ([] ++ [[0]]) < vadWindowSize 1 ∧
    detect_speech_vad 1 (fun _ => true) [] [0] = ⟨false, [] ++ [[0]], false⟩ :=
  ⟨by decide,
   detect_speech_vad_insufficient 1 (fun _ => true) [] [0] (by decide)⟩

theorem processSubchunks_nil (stab minSil : ℕ) (s : SessionState) :
    processSubchunks stab minSil [] s = s := rfl

theorem processSubchunks_append (stab minSil : ℕ) (l₁ l₂ : List (Chunk × Bool))
    (s : SessionState) :
    processSubchunks stab minSil (l₁ ++ l₂) s =
      processSubchunks stab minSil l₂ (processSubchunks stab minSil l₁ s) := by
  simp [processSubchunks, List.foldl_append]

theorem processSubchunks_cons (stab minSil : ℕ) (c : Chunk) (b : Bool)
    (l : List (Chunk × Bool)) (s : SessionState) :
    processSubchunks stab minSil ((c, b) :: l) s =
      processSubchunks stab minSil l (processSubchunk stab minSil s c b) :=
  rfl

theorem processSubchunks_singleton (stab minSil : ℕ) (c : Chunk) (b : Bool)
    (s : SessionState) :
    processSubchunks stab minSil [(c, b)] s = processSubchunk stab minSil s c b :=
  rfl

theorem speech_step_fields (stab minSil : ℕ) (s : SessionState) (sub : Chunk)
    (hs : s.is_speaking = true) :
    (processSubchunk stab minSil s sub true).is_speaking = true ∧
    (processSubchunk stab minSil s sub true).silence_counter = 0 ∧
    (processSubchunk stab minSil s sub true).speaking_buffer =
      s.speaking_buffer ++ [sub] ∧
    (processSubchunk stab minSil s sub true).final_results = s.final_results ∧
    (processSubchunk stab minSil s sub true).audio_buffer = s.audio_buffer ∧
    (processSubchunk stab minSil s sub true).vad_buffer = s.vad_buffer ∧
    (processSubchunk stab minSil s sub true).interim_results.length =
      s.interim_results.length +
        (if (s.speaking_buffer.length + 1) % stab = 0 then 1 else 0) := by
  unfold processSubchunk
  rw [hs]
  by_cases h : (s.speaking_buffer.length + 1) % stab = 0
  · simp [performInterim, h]
  · simp [performInterim, h]

theorem speech_step_no_interim (stab minSil : ℕ) (s : SessionState)
    (sub : Chunk) (hs : s.is_speaking = true)
    (h : ¬ (s.speaking_buffer.length + 1) % stab = 0) :
    (processSubchunk stab minSil s sub true).interim_results =
      s.interim_results := by
  unfold processSubchunk
  rw [hs]
  simp [h]

theorem silence_step_keeps_interim (stab minSil : ℕ) (s : SessionState)
    (sub : Chunk) :
    (processSubchunk stab minSil s sub false).interim_results =
      s.interim_results := by
  unfold processSubchunk
  by_cases hs : s.is_speaking
  · by_cases h : minSil ≤ s.silence_counter + sub.length
    · simp [hs, h, finalizeSegment]
    · simp [hs, h]
  · simp [hs]

theorem silence_step_continue (stab minSil : ℕ) (s : SessionState)
    (sub : Chunk) (hs : s.is_speaking = true)
    (h : s.silence_counter + sub.length < minSil) :
    processSubchunk stab minSil s sub false =
      { s with speaking_buffer := s.speaking_buffer ++ [sub],
               silence_counter := s.silence_counter + sub.length } := by
  unfold processSubchunk
  simp [hs, not_le.mpr h]

theorem silence_step_finalize (stab minSil : ℕ) (s : SessionState)
    (sub : Chunk) (hs : s.is_speaking = true)
    (h : minSil ≤ s.silence_counter + sub.length) :
    processSubchunk stab minSil s sub false =
      { s with is_speaking := false, silence_counter := 0,
               speaking_buffer := [], vad_buffer := [],
               final_results := s.final_results ++
                 [⟨totalSamples s.speaking_buffer + sub.length, true⟩] } := by
  unfold processSubchunk
  simp [hs, h, finalizeSegment, totalSamples_append, totalSamples_cons,
    totalSamples_nil]

theorem idle_silence_step (stab minSil : ℕ) (s : SessionState) (sub : Chunk)
    (hs : s.is_speaking = false) :
    processSubchunk stab minSil s sub false = s := by
  unfold processSubchunk
  simp [hs]

theorem idle_silence_phase (stab minSil : ℕ) (ch : Chunk) :
    ∀ (m : ℕ) (s : SessionState), s.is_speaking = false →
      processSubchunks stab minSil (List.replicate m (ch, false)) s = s
  | 0, s, _ => rfl
  | m + 1, s, hs => by
      rw [List.replicate_succ, processSubchunks_cons,
        idle_silence_step stab minSil s ch hs]
      exact idle_silence_phase stab minSil ch m s hs

theorem speech_phase (stab minSil : ℕ) (ch : Chunk) (s : SessionState)
    (hs : s.is_speaking = false) :
    ∀ j : ℕ, 0 < j →
      (processSubchunks stab minSil (List.replicate j (ch, true)) s).is_speaking
          = true ∧
      (processSubchunks stab minSil (List.replicate j (ch, true)) s).silence_counter
          = 0 ∧
      (processSubchunks stab minSil (List.replicate j (ch, true)) s).speaking_buffer
          = List.replicate j ch ∧
      (processSubchunks stab minSil (List.replicate j (ch, true)) s).final_results
          = s.final_results ∧
      (processSubchunks stab minSil (List.replicate j (ch, true)) s).interim_results.length
          = s.interim_results.length + j / stab := by
  intro j hj
  induction j with
  | zero => exact absurd hj (by omega)
  | succ n ih =>
      rcases Nat.eq_zero_or_pos n with hn | hn
      · subst hn
        simp only [Nat.zero_add]
        rw [List.replicate_one, processSubchunks_singleton]
        have h1div : ¬ (1 % stab = 0) → 1 / stab = 0 := by
          intro h
          match stab with
          | 0 => rfl
          | 1 => exact absurd rfl h
          | k + 2 => exact Nat.div_eq_of_lt (by omega)
        unfold processSubchunk
        by_cases h : (1 : ℕ) % stab = 0
        · have hstab1 : stab = 1 := Nat.dvd_one.mp (Nat.dvd_of_mod_eq_zero h)
          subst hstab1
          simp [hs, performInterim, List.replicate_one]
        · simp [hs, performInterim, h, h1div h, List.replicate_one]
      · obtain ⟨h1, h2, h3, h4, h5⟩ := ih hn
        rw [List.replicate_succ', processSubchunks_append]
        set r := processSubchunks stab minSil (List.replicate n (ch, true)) s
          with hr
        rw [show processSubchunks stab minSil [(ch, true)] r =
              processSubchunk stab minSil r ch true from rfl]
        obtain ⟨g1, g2, g3, g4, _g5, _g6, g7⟩ :=
          speech_step_fields stab minSil r ch h1
        refine ⟨g1, g2, ?_, g4.trans h4, ?_⟩
        · rw [g3, h3, ← List.replicate_succ']
        · rw [g7, h5, h3, List.length_replicate, Nat.succ_div,
            if_congr (Nat.dvd_iff_mod_eq_zero).symm rfl rfl, Nat.add_assoc]

/-- Ceiling division `⌈a / c⌉`, used to state how many silence sub-chunks
of size `c` are needed to accumulate `a` samples. -/
def ceilDiv (a c : ℕ) : ℕ := (a + c - 1) / c

theorem ceilDiv_spec (a c : ℕ) (ha : 0 < a) (hc : 0 < c) :
    0 < ceilDiv a c ∧ a ≤ ceilDiv a c * c ∧ (ceilDiv a c - 1) * c < a := by
  have hkey : ceilDiv a c = (a - 1) / c + 1 := by
    unfold ceilDiv
    have h1 : a + c - 1 = (a - 1) + c := by omega
    rw [h1, Nat.add_div_right _ hc]
  have hq := Nat.div_add_mod (a - 1) c
  have hr : (a - 1) % c < c := Nat.mod_lt _ hc
  rw [hkey]
  refine ⟨Nat.succ_pos _, ?_, ?_⟩
  · have e1 : ((a - 1) / c + 1) * c = c * ((a - 1) / c) + c := by ring
    rw [e1]
    omega
  · have e2 : ((a - 1) / c + 1 - 1) * c = c * ((a - 1) / c) := by
      rw [Nat.add_sub_cancel]
      ring
    rw [e2]
    omega

theorem silence_phase_partial (stab minSil : ℕ) (ch : Chunk) :
    ∀ (u : ℕ) (s : SessionState), s.is_speaking = true →
      s.silence_counter = 0 → u * ch.length < minSil →
      processSubchunks stab minSil (List.replicate u (ch, false)) s =
        { s with speaking_buffer := s.speaking_buffer ++ List.replicate u ch,
                 silence_counter := u * ch.length }
  | 0, s, _, hsc, _ => by
      rw [List.replicate_zero, List.replicate_zero, processSubchunks_nil,
        List.append_nil, Nat.zero_mul, ← hsc]
  | u + 1, s, hs, hsc, hu => by
      have hu' : u * ch.length < minSil := by
        have h : (u + 1) * ch.length = u * ch.length + ch.length := by ring
        omega
      rw [List.replicate_succ', processSubchunks_append,
        silence_phase_partial stab minSil ch u s hs hsc hu',
        processSubchunks_singleton]
      rw [silence_step_continue stab minSil _ ch (by simp [hs]) (by
        show u * ch.length + ch.length < minSil
        have h : (u + 1) * ch.length = u * ch.length + ch.length := by ring
        omega)]
      have e1 : (s.speaking_buffer ++ List.replicate u ch) ++ [ch] =
          s.speaking_buffer ++ List.replicate (u + 1) ch := by
        rw [List.append_assoc, ← List.replicate_succ']
      have e2 : u * ch.length + ch.length = (u + 1) * ch.length :=
        (Nat.succ_mul u ch.length).symm
      simp [e1, e2]

theorem silence_phase_finalizes (stab minSil : ℕ) (hmin : 0 < minSil)
    (ch : Chunk) (hch : 0 < ch.length) (s : SessionState)
    (hs : s.is_speaking = true) (hsc : s.silence_counter = 0) (m : ℕ) :
    processSubchunks stab minSil
        (List.replicate (ceilDiv minSil ch.length + m) (ch, false)) s =
      { s with is_speaking := false, silence_counter := 0,
               speaking_buffer := [], vad_buffer := [],
               final_results := s.final_results ++
                 [⟨totalSamples s.speaking_buffer +
                     ceilDiv minSil ch.length * ch.length, true⟩] } := by
  obtain ⟨ht0, htge, htlt⟩ := ceilDiv_spec minSil ch.length hmin hch
  obtain ⟨u, hu⟩ : ∃ u, ceilDiv minSil ch.length = u + 1 :=
    ⟨ceilDiv minSil ch.length - 1, by omega⟩
  rw [hu] at htge htlt ⊢
  rw [Nat.add_sub_cancel] at htlt
  have hsplit : u + 1 + m = u + (1 + m) := by omega
  rw [hsplit, List.replicate_add, processSubchunks_append,
    silence_phase_partial stab minSil ch u s hs hsc htlt,
    List.replicate_add, List.replicate_one, List.singleton_append,
    processSubchunks_cons]
  rw [silence_step_finalize stab minSil _ ch (by simp [hs]) (by
    show minSil ≤ u * ch.length + ch.length
    have h : (u + 1) * ch.length = u * ch.length + ch.length := by ring
    omega)]
  rw [idle_silence_phase stab minSil ch m _ (by simp)]
  have harith : totalSamples (s.speaking_buffer ++ List.replicate u ch) +
      ch.length = totalSamples s.speaking_buffer + (u + 1) * ch.length := by
    rw [totalSamples_append, totalSamples_replicate]
    have h : (u + 1) * ch.length = u * ch.length + ch.length := by ring
    omega
  simp [harith]

/-- C1: a stream whose sub-chunks (each of `chunk_size = c` samples) are
classified as speech for the first `K` sub-chunks and as silence for the
next `ceil(min_silence_samples / c) + 1` sub-chunks makes the segmentation
loop emit exactly one final result; its recorded segment length is
`(K + ceil(min_silence_samples / c)) * c` samples, which lies within
`min_silence_samples + c` samples of `K * c` (the `duration` field is this
length divided by `sample_rate`, hence approximately
`K * c / sample_rate` seconds). -/
theorem one_final_result (stab minSil c K : ℕ) (chS chZ : Chunk)
    (_hstab : 0 < stab) (hmin : 0 < minSil) (hc : 0 < c) (hK : 0 < K)
    (hchS : chS.length = c) (hchZ : chZ.length = c) :
    (processSubchunks stab minSil
        (List.replicate K (chS, true) ++
         List.replicate (ceilDiv minSil c + 1) (chZ, false))
        initState).final_results =
      [⟨(K + ceilDiv minSil c) * c, true⟩] ∧
    K * c ≤ (K + ceilDiv minSil c) * c ∧
    (K + ceilDiv minSil c) * c < K * c + minSil + c := by
  obtain ⟨ht0, htge, htlt⟩ := ceilDiv_spec minSil c hmin hc
  rw [processSubchunks_append]
  obtain ⟨h1, h2, h3, h4, _h5⟩ :=
    speech_phase stab minSil chS initState (by rfl) K hK
  set r := processSubchunks stab minSil (List.replicate K (chS, true))
    initState with hrdef
  have hfin := silence_phase_finalizes stab minSil hmin chZ
    (by omega) r h1 h2 1
  rw [hchZ] at hfin
  rw [hfin]
  have hbuf : totalSamples r.speaking_buffer = K * c := by
    rw [h3, totalSamples_replicate, hchS]
  refine ⟨?_, Nat.mul_le_mul_right c (Nat.le_add_right K _), ?_⟩
  · simp only [hbuf, h4]
    rw [show (initState.final_results : List StreamResult) = [] from rfl,
      List.nil_append, Nat.add_mul]
  · obtain ⟨u, hu⟩ : ∃ u, ceilDiv minSil c = u + 1 := ⟨ceilDiv minSil c - 1, by omega⟩
    rw [hu] at htlt ⊢
    rw [Nat.add_sub_cancel] at htlt
    have e : (K + (u + 1)) * c = K * c + (u * c + c) := by ring
    rw [e]
    omega

theorem one_final_result_witness :
    ((0 : ℕ) < 5 ∧ (0 : ℕ) < 3 ∧ (0 : ℕ) < 2 ∧ (0 : ℕ) < 1 ∧
      ([1, 1] : Chunk).length = 2 ∧ ([0, 0] : Chunk).length = 2) ∧
    ((processSubchunks 5 3
        (List.replicate 1 (([1, 1] : Chunk), true) ++
         List.replicate (ceilDiv 3 2 + 1) (([0, 0] : Chunk), false))
        initState).final_results =
      [⟨(1 + ceilDiv 3 2) * 2, true⟩] ∧
    1 * 2 ≤ (1 + ceilDiv 3 2) * 2 ∧
    (1 + ceilDiv 3 2) * 2 < 1 * 2 + 3 + 2) :=
  ⟨⟨by decide, by decide, by decide, by decide, by decide, by decide⟩,
   one_final_result 5 3 2 1 [1, 1] [0, 0] (by decide) (by decide) (by decide)
     (by decide) (by decide) (by decide)⟩

/-- C3: during an active speech run a sub-chunk classified as speech emits
an interim result exactly when the run's accumulated sub-chunk count (after
appending it) is a multiple of `stabilization_frames`, a sub-chunk
classified as silence never emits one, and a continuous speech run of
`stabilization_frames * 3` sub-chunks emits exactly 3 interim results and
no final result. -/
theorem stabilization_interims (stab minSil : ℕ) (hstab : 0 < stab)
    (ch : Chunk) :
    ((processSubchunks stab minSil (List.replicate (3 * stab) (ch, true))
        initState).interim_results.length = 3 ∧
     (processSubchunks stab minSil (List.replicate (3 * stab) (ch, true))
        initState).final_results = []) ∧
    (∀ (s : SessionState) (sub : Chunk), s.is_speaking = true →
      ((processSubchunk stab minSil s sub true).interim_results.length =
          s.interim_results.length + 1 ↔
        (s.speaking_buffer.length + 1) % stab = 0) ∧
      (¬ (s.speaking_buffer.length + 1) % stab = 0 →
        (processSubchunk stab minSil s sub true).interim_results =
          s.interim_results)) ∧
    (∀ (s : SessionState) (sub : Chunk),
      (processSubchunk stab minSil s sub false).interim_results =
        s.interim_results) := by
  refine ⟨?_, ?_, fun s sub => silence_step_keeps_interim stab minSil s sub⟩
  · obtain ⟨_, _, _, h4, h5⟩ :=
      speech_phase stab minSil ch initState (by rfl) (3 * stab)
        (by positivity)
    refine ⟨?_, h4⟩
    rw [h5, Nat.mul_div_cancel 3 hstab]
    rfl
  · intro s sub hs
    obtain ⟨_, _, _, _, _, _, g7⟩ := speech_step_fields stab minSil s sub hs
    constructor
    · rw [g7]
      by_cases h : (s.speaking_buffer.length + 1) % stab = 0
      · simp [h]
      · simp [h]
    · exact speech_step_no_interim stab minSil s sub hs

theorem stabilization_interims_witness :
    (0 : ℕ) < 2 ∧
    (processSubchunks 2 5 (List.replicate (3 * 2) (([1] : Chunk), true))
        initState).interim_results.length = 3 :=
  ⟨by decide, (stabilization_interims 2 5 (by decide) [1]).1.1⟩

/-- Running state of the merge loop in `segment_audio`
(`vad_utils.py` lines 81-102). -/
structure SegState where
  curr_start : ℚ
  curr_end : ℚ
  curr_duration : ℚ
  boundaries : List (ℚ × ℚ)
deriving Repr, DecidableEq

/-- Emission of the accumulated chunk (`vad_utils.py` lines 92-98): the
chunk is recorded only when its bounds are increasing and the sliced pydub
segment is non-empty, i.e. the bounds differ once truncated to whole
milliseconds (`int(curr_start * 1000)` / `int(curr_end * 1000)`; the bounds
are always non-negative, so truncation is the floor; a one-millisecond
slice is non-empty for the sample rates at hand, at least 1000 Hz). -/
def emitChunk (s : SegState) : List (ℚ × ℚ) :=
  if s.curr_start < s.curr_end then
    if Rat.floor (1000 * s.curr_start) < Rat.floor (1000 * s.curr_end) then
      s.boundaries ++ [(s.curr_start, s.curr_end)]
    else s.boundaries
  else s.boundaries

/-- One iteration of the merge loop of `segment_audio` (`vad_utils.py`
lines 85-102): clamp the oracle segment to the clip, start a new output
chunk when (the accumulated duration exceeds `min_duration` and the gap
since the current chunk's end exceeds `new_chunk_threshold`) or extending
to the segment's end would exceed `max_duration`; otherwise extend the
current chunk.  `L` is the clip length in seconds. -/
def segStep (minD maxD thr L : ℚ) (s : SegState) (seg : ℚ × ℚ) : SegState :=
  if (minD < s.curr_duration ∧ thr < max 0 seg.1 - s.curr_end) ∨
      maxD < s.curr_duration + (min L seg.2 - s.curr_end) then
    { curr_start := max 0 seg.1, curr_end := min L seg.2,
      curr_duration := min L seg.2 - max 0 seg.1,
      boundaries := emitChunk s }
  else
    { curr_start := s.curr_start, curr_end := min L seg.2,
      curr_duration := min L seg.2 - s.curr_start,
      boundaries := s.boundaries }

/-- The boundary output of `segment_audio` (`vad_utils.py` lines 79-111)
over a VAD timeline, including the trailing flush (lines 104-111). -/
def segmentBoundaries (minD maxD thr L : ℚ) (timeline : List (ℚ × ℚ)) :
    List (ℚ × ℚ) :=
  if (timeline.foldl (segStep minD maxD thr L) ⟨0, 0, 0, []⟩).curr_duration ≠ 0
  then emitChunk (timeline.foldl (segStep minD maxD thr L) ⟨0, 0, 0, []⟩)
  else (timeline.foldl (segStep minD maxD thr L) ⟨0, 0, 0, []⟩).boundaries

/-- The two failure modes of `segment_audio` (`vad_utils.py` lines 59-70):
a `TypeError` for a non-tensor input and a `ValueError` for a clip shorter
than 1000 milliseconds. -/
inductive SegError where
  | typeError
  | valueError
deriving Repr, DecidableEq

/-- Input to `segment_audio`: either a tensor of samples or a value of some
other type. -/
inductive SegInput where
  | tensor (samples : List ℚ)
  | nonTensor

/-- Rounding `x` to the nearest integer, written with `Rat.floor` and
`Rat.divInt` (as `⌊(2 num + den) / (2 den)⌋`) so that it evaluates by
kernel reduction; it agrees with Mathlib's `round` (see
`roundQ_eq_round`). -/
def roundQ (x : ℚ) : ℤ := Rat.floor (Rat.divInt (2 * x.num + x.den) (2 * x.den))

theorem ratFloor_eq_intFloor (x : ℚ) : Rat.floor x = Int.floor x := rfl

theorem roundQ_eq_round (x : ℚ) : roundQ x = round x := by
  have hden : ((x.den : ℚ)) ≠ 0 := by
    exact_mod_cast x.den_nz
  have hx : x * (x.den : ℚ) = (x.num : ℚ) := Rat.mul_den_eq_num x
  rw [roundQ, ratFloor_eq_intFloor, Rat.divInt_eq_div, round_eq]
  congr 1
  push_cast
  field_simp
  linear_combination (-4 : ℚ) * hx

/-- Length in whole milliseconds of the pydub segment built from `n`
samples at rate `sr` — `len(audio)` in `vad_utils.py` line 69; pydub
reports the duration rounded to the nearest millisecond (see
`lenMs_eq_round`). -/
def lenMs (n sr : ℕ) : ℤ := roundQ (Rat.divInt (1000 * (n : ℤ)) (sr : ℤ))

theorem lenMs_eq_round (n sr : ℕ) :
    lenMs n sr = round (((1000 * n : ℕ) : ℚ) / (sr : ℚ)) := by
  rw [lenMs, roundQ_eq_round, Rat.divInt_eq_div]
  norm_num

/-- `segment_audio` (`vad_utils.py` lines 46-114): input validation
followed by the VAD merge loop, with the timeline returned by the external
VAD pipeline supplied as an argument. -/
def segment_audio (inp : SegInput) (sr : ℕ) (maxD minD thr : ℚ)
    (timeline : List (ℚ × ℚ)) : Except SegError (List (ℚ × ℚ)) :=
  match inp with
  | .nonTensor => .error .typeError
  | .tensor samples =>
      if lenMs samples.length sr < 1000 then .error .valueError
      else .ok (segmentBoundaries minD maxD thr
                  ((lenMs samples.length sr : ℚ) / 1000) timeline)

/-- C7: `segment_audio` fails exactly when the input is not a tensor (with
a type error) or the clip is shorter than one second, i.e. its length in
whole milliseconds is below 1000 (with a value error); in those cases it
returns an error carrying no output chunks, and otherwise it returns
chunks. -/
theorem segment_audio_errors (sr : ℕ) (maxD minD thr : ℚ)
    (timeline : List (ℚ × ℚ)) :
    segment_audio SegInput.nonTensor sr maxD minD thr timeline =
        Except.error SegError.typeError ∧
    ∀ samples : List ℚ,
      (lenMs samples.length sr < 1000 →
        segment_audio (SegInput.tensor samples) sr maxD minD thr timeline =
          Except.error SegError.valueError) ∧
      (1000 ≤ lenMs samples.length sr →
        segment_audio (SegInput.tensor samples) sr maxD minD thr timeline =
          Except.ok (segmentBoundaries minD maxD thr
            ((lenMs samples.length sr : ℚ) / 1000) timeline)) := by
  refine ⟨rfl, fun samples => ⟨fun h => ?_, fun h => ?_⟩⟩
  · simp only [segment_audio]
    rw [if_pos h]
  · simp only [segment_audio]
    rw [if_neg (not_lt.mpr h)]

theorem segment_audio_errors_witness :
    (segment_audio SegInput.nonTensor 4 22 15 1 [] =
        Except.error SegError.typeError) ∧
    (lenMs ([0] : List ℚ).length 4 < 1000 ∧
      segment_audio (SegInput.tensor [0]) 4 22 15 1 [] =
        Except.error SegError.valueError) ∧
    (1000 ≤ lenMs ([0, 0, 0, 0] : List ℚ).length 4 ∧
      segment_audio (SegInput.tensor [0, 0, 0, 0]) 4 22 15 1 [] =
        Except.ok (segmentBoundaries 15 22 1
          ((lenMs ([0, 0, 0, 0] : List ℚ).length 4 : ℚ) / 1000) [])) :=
  ⟨(segment_audio_errors 4 22 15 1 []).1,
   ⟨by decide, ((segment_audio_errors 4 22 15 1 []).2 [0]).1 (by decide)⟩,
   ⟨by decide, ((segment_audio_errors 4 22 15 1 []).2 [0, 0, 0, 0]).2 (by decide)⟩⟩

theorem segmentBoundaries_eq (minD maxD thr L : ℚ) (tl : List (ℚ × ℚ)) :
    segmentBoundaries minD maxD thr L tl =
      if (tl.foldl (segStep minD maxD thr L) ⟨0, 0, 0, []⟩).curr_duration ≠ 0
      then emitChunk (tl.foldl (segStep minD maxD thr L) ⟨0, 0, 0, []⟩)
      else (tl.foldl (segStep minD maxD thr L) ⟨0, 0, 0, []⟩).boundaries := rfl

theorem ratFloor_thousand_pos (x : ℚ) (hx : (1 : ℚ) ≤ x) :
    Rat.floor (1000 * (0 : ℚ)) < Rat.floor (1000 * x) := by
  rw [ratFloor_eq_intFloor, ratFloor_eq_intFloor]
  have h1 : ((1000 : ℤ) : ℚ) ≤ 1000 * x := by
    push_cast
    linarith
  have h2 := Int.le_floor.mpr h1
  have h3 : ⌊(1000 : ℚ) * 0⌋ = 0 := by simp
  omega

theorem ratFloor_thousand_lt (x y : ℚ) (h : x + 1 ≤ y) :
    Rat.floor (1000 * x) < Rat.floor (1000 * y) := by
  rw [ratFloor_eq_intFloor, ratFloor_eq_intFloor]
  have h1 : (1000 : ℚ) * x + ((1000 : ℤ) : ℚ) ≤ 1000 * y := by
    push_cast
    linarith
  have h2 : ⌊(1000 : ℚ) * x + ((1000 : ℤ) : ℚ)⌋ = ⌊(1000 : ℚ) * x⌋ + 1000 :=
    Int.floor_add_int _ _
  have h3 := Int.floor_le_floor h1
  omega

/-- C6: processing a VAD timeline of two ordered in-range segments
`(a, b)` and `(c, d)`, the merge loop starts a new output chunk for the
second segment exactly under the source's rule — accumulated duration
above `min_duration` and gap above `new_chunk_threshold`, or extension
beyond `max_duration` (here excluded by `d ≤ maxD`).  A gap `c - b` at
most `new_chunk_threshold` therefore merges both segments into the single
output chunk `(0, d)`, while a gap above it after more than `min_duration`
accumulated splits the output into the two chunks `(0, b)` and `(c, d)`
(the first output chunk starts at `0`, the initial `curr_start`). -/
theorem segment_merge_split (minD maxD thr L a b c d : ℚ)
    (h0a : 0 ≤ a) (hab : a ≤ b) (hbc : b ≤ c) (hcd : c ≤ d) (hdL : d ≤ L)
    (hminD : 0 ≤ minD) (hmax : d ≤ maxD) :
    (c - b ≤ thr → (1 : ℚ) ≤ d →
      segmentBoundaries minD maxD thr L [(a, b), (c, d)] = [(0, d)]) ∧
    (minD < b → thr < c - b → (1 : ℚ) ≤ b → c + 1 ≤ d →
      segmentBoundaries minD maxD thr L [(a, b), (c, d)] =
        [(0, b), (c, d)]) := by
  have hbL : b ≤ L := by linarith
  have hc1 : ¬ ((minD < (0 : ℚ) ∧ thr < max 0 a - 0) ∨
      maxD < 0 + (min L b - 0)) := by
    push_neg
    refine ⟨fun hm => absurd hm (not_lt.mpr hminD), ?_⟩
    have h := min_le_right L b
    linarith
  have e1 : segStep minD maxD thr L ⟨0, 0, 0, []⟩ (a, b) = ⟨0, b, b, []⟩ := by
    unfold segStep
    rw [if_neg hc1]
    simp [min_eq_right hbL]
  have hcmax : max 0 c = c := max_eq_right (by linarith)
  have hdmin : min L d = d := min_eq_right hdL
  constructor
  · intro hm1 hm2
    have hc2 : ¬ ((minD < b ∧ thr < max 0 c - b) ∨
        maxD < b + (min L d - b)) := by
      push_neg
      rw [hcmax, hdmin]
      exact ⟨fun _ => by linarith, by linarith⟩
    have e2 : segStep minD maxD thr L ⟨0, b, b, []⟩ (c, d) = ⟨0, d, d, []⟩ := by
      unfold segStep
      rw [if_neg hc2]
      simp [hdmin]
    have hF : List.foldl (segStep minD maxD thr L) ⟨0, 0, 0, []⟩
        [(a, b), (c, d)] = ⟨0, d, d, []⟩ := by
      simp only [List.foldl_cons, List.foldl_nil]
      rw [e1, e2]
    rw [segmentBoundaries_eq, hF]
    have hd0 : (d : ℚ) ≠ 0 := by linarith
    have hlt : (0 : ℚ) < d := by linarith
    rw [if_pos hd0]
    unfold emitChunk
    rw [if_pos hlt, if_pos (ratFloor_thousand_pos d hm2)]
    simp
  · intro hs1 hs2 hs3 hs4
    have hcond2 : (minD < b ∧ thr < max 0 c - b) ∨
        maxD < b + (min L d - b) := Or.inl ⟨hs1, by rw [hcmax]; linarith⟩
    have hemit1 : emitChunk ⟨0, b, b, []⟩ = [(0, b)] := by
      unfold emitChunk
      have hb0 : (0 : ℚ) < b := by linarith
      rw [if_pos hb0, if_pos (ratFloor_thousand_pos b hs3)]
      simp
    have e2 : segStep minD maxD thr L ⟨0, b, b, []⟩ (c, d) =
        ⟨c, d, d - c, [(0, b)]⟩ := by
      unfold segStep
      rw [if_pos hcond2, hemit1]
      simp [hcmax, hdmin]
    have hF : List.foldl (segStep minD maxD thr L) ⟨0, 0, 0, []⟩
        [(a, b), (c, d)] = ⟨c, d, d - c, [(0, b)]⟩ := by
      simp only [List.foldl_cons, List.foldl_nil]
      rw [e1, e2]
    rw [segmentBoundaries_eq, hF]
    have hdur : d - c ≠ 0 := by linarith
    have hlt : (c : ℚ) < d := by linarith
    rw [if_pos hdur]
    unfold emitChunk
    rw [if_pos hlt, if_pos (ratFloor_thousand_lt c d hs4)]
    simp

theorem segment_merge_split_witness :
    segmentBoundaries 15 22 1 30 [(1, 2), (3, 4)] = [(0, 4)] ∧
    segmentBoundaries 15 22 1 30 [(1, 16), (18, 19)] = [(0, 16), (18, 19)] :=
  ⟨(segment_merge_split 15 22 1 30 1 2 3 4 (by norm_num) (by norm_num)
      (by norm_num) (by norm_num) (by norm_num) (by norm_num)
      (by norm_num)).1 (by norm_num) (by norm_num),
   (segment_merge_split 15 22 1 30 1 16 18 19 (by norm_num) (by norm_num)
      (by norm_num) (by norm_num) (by norm_num) (by norm_num)
      (by norm_num)).2 (by norm_num) (by norm_num) (by norm_num)
      (by norm_num)⟩

end GigaAM
